import Mathlib

/-
Verification of the generator-utils combinator library.

A coroutine (Rust `Generator`) is embedded as a step function over an explicit
state type: resuming from state `s` produces a `GeneratorState` (either
`Yielded y` or `Complete r`, mirroring `std::ops::GeneratorState`) together
with the successor state. Each combinator of the crate (Take, TakeWhile, Map,
Filter, Mapped, GenIter) is translated as a state structure mirroring the Rust
struct's data fields plus a `resume` function translated branch for branch from
its `Generator::resume` implementation; user closures (`FnMut` transforms and
predicates) are modelled as pure functions passed as parameters.
-/

namespace GenUtils

/-- Result of one resume call, mirroring `std::ops::GeneratorState` with its
variants `Yielded(Y)` and `Complete(R)`. -/
inductive GeneratorState (Y R : Type) : Type where
  | Yielded : Y → GeneratorState Y R
  | Complete : R → GeneratorState Y R

/-- A coroutine with state type `S`, yield type `Y` and return type `R`:
its resume operation, as a function from state to result and new state. -/
abbrev StepFun (S Y R : Type) : Type := S → GeneratorState Y R × S

variable {S T Y R O A B : Type}

/-- Resume-counting stub (the spec's "resume-counting stub"): wraps a
coroutine so that its state additionally carries the number of times it has
been resumed; behaviour is otherwise unchanged. -/
def countStep (g : StepFun S Y R) : StepFun (S × Nat) Y R :=
  fun p =>
    let out := g p.1
    (out.1, (out.2, p.2 + 1))

/-- The canonical finite coroutine, as built by the crate's tests
(`for i in .. { yield i }`): yields the elements of a list in order and then
completes with return value `r`. -/
def listStep (r : R) : StepFun (List Y) Y R :=
  fun l =>
    match l with
    | [] => (GeneratorState.Complete r, [])
    | y :: ys => (GeneratorState.Yielded y, ys)

/-- Drive a step function `n` times from a start state, collecting the `n`
outputs and the final state. Observation helper. -/
def stepN (step : S → A × S) : Nat → S → List A × S
  | 0, s => ([], s)
  | n + 1, s =>
    let out := step s
    let rest := stepN step n out.2
    (out.1 :: rest.1, rest.2)

/-- The observable behaviour of a coroutine within `fuel` resumes: the list of
yielded values, and its return value when it completes within the fuel. -/
def run (g : StepFun S Y R) : Nat → S → List Y × Option R
  | 0, _ => ([], none)
  | fuel + 1, s =>
    match g s with
    | (GeneratorState.Yielded y, s1) =>
      let rest := run g fuel s1
      (y :: rest.1, rest.2)
    | (GeneratorState.Complete r, _) => ([], some r)

/-- State of the `Take` combinator, from `src/take.rs`: a remaining `count`
and the inner coroutine. -/
structure Take (S : Type) : Type where
  count : Nat
  gen : S

/-- Constructor `Take::new` from `src/take.rs`. -/
def Take.new (gen : S) (count : Nat) : Take S :=
  ⟨count, gen⟩

/-- Translation of `impl Generator for Take`'s `resume` (src/take.rs): if
`count != 0`, decrement it and resume the inner coroutine once, forwarding a
yield and turning an inner completion into `Complete ()` with `count` forced
to 0; if `count == 0`, return `Complete ()` touching nothing. -/
def Take.resume (g : StepFun S Y R) : StepFun (Take S) Y Unit :=
  fun self =>
    if self.count ≠ 0 then
      let count := self.count - 1
      match g self.gen with
      | (GeneratorState.Yielded y, s1) => (GeneratorState.Yielded y, ⟨count, s1⟩)
      | (GeneratorState.Complete _, s1) => (GeneratorState.Complete (), ⟨0, s1⟩)
    else
      (GeneratorState.Complete (), self)

/-- State of the `TakeWhile` combinator, from `src/takewhile.rs`: the one-shot
`complete` flag and the inner coroutine (the predicate is a parameter of
`resume` in this embedding). -/
structure TakeWhile (S : Type) : Type where
  complete : Bool
  gen : S

/-- Constructor `TakeWhile::new` from `src/takewhile.rs`: flag starts false. -/
def TakeWhile.new (gen : S) : TakeWhile S :=
  ⟨false, gen⟩

/-- Translation of `impl Generator for TakeWhile`'s `resume`
(src/takewhile.rs): if `complete` is set, return `Complete ()` immediately.
Otherwise resume the inner coroutine once: on a yield, the predicate decides
between forwarding the value (flag untouched) and setting `complete` while
returning `Complete ()`; on inner completion the code returns `Complete ()`
and leaves the `complete` field as it was (the wildcard arm of the Rust match
does not write the flag). -/
def TakeWhile.resume (g : StepFun S Y R) (predicate : Y → Bool) :
    StepFun (TakeWhile S) Y Unit :=
  fun self =>
    if self.complete then
      (GeneratorState.Complete (), self)
    else
      match g self.gen with
      | (GeneratorState.Yielded y, s1) =>
        if predicate y then
          (GeneratorState.Yielded y, ⟨self.complete, s1⟩)
        else
          (GeneratorState.Complete (), ⟨true, s1⟩)
      | (GeneratorState.Complete _, s1) => (GeneratorState.Complete (), ⟨self.complete, s1⟩)

/-- State of the `Map` combinator, from `src/map.rs`: the inner coroutine
(field `g`); the transform closure `f` is a parameter of `resume`. -/
structure Map (S : Type) : Type where
  g : S

/-- Translation of `impl Generator for Map`'s `resume` (src/map.rs): resume
the inner coroutine once; apply `f` to a yielded value, pass a completion
through unchanged. -/
def Map.resume (g : StepFun S Y R) (f : Y → O) : StepFun (Map S) O R :=
  fun self =>
    match g self.g with
    | (GeneratorState.Yielded y, s1) => (GeneratorState.Yielded (f y), ⟨s1⟩)
    | (GeneratorState.Complete r, s1) => (GeneratorState.Complete r, ⟨s1⟩)

/-- State of the `Filter` combinator, from `src/filter.rs`: the inner
coroutine (field `gen`); the predicate closure is a parameter of `resume`. -/
structure Filter (S : Type) : Type where
  gen : S

/-- Translation of the unbounded `loop` in `impl Generator for Filter`'s
`resume` (src/filter.rs), made total by fuel (`none` means the loop did not
finish within the fuel): resume the inner coroutine; a yielded value accepted
by the predicate breaks out of the loop as `Yielded`, a rejected value loops,
a completion breaks out immediately as `Complete r`. -/
def Filter.resumeLoop (g : StepFun S Y R) (predicate : Y → Bool) :
    Nat → S → Option (GeneratorState Y R × S)
  | 0, _ => none
  | fuel + 1, s =>
    match g s with
    | (GeneratorState.Yielded y, s1) =>
      if predicate y then
        some (GeneratorState.Yielded y, s1)
      else
        Filter.resumeLoop g predicate fuel s1
    | (GeneratorState.Complete r, s1) => some (GeneratorState.Complete r, s1)

/-- The `resume` of `Filter` as a function on its state structure, wrapping
`Filter.resumeLoop`. -/
def Filter.resume (g : StepFun S Y R) (predicate : Y → Bool) (fuel : Nat)
    (self : Filter S) : Option (GeneratorState Y R × Filter S) :=
  (Filter.resumeLoop g predicate fuel self.gen).map (fun p => (p.1, ⟨p.2⟩))

/-- State of the `Mapped` combinator, from `src/mapped.rs`: a tuple struct
holding only the produced coroutine. -/
structure Mapped (S : Type) : Type where
  gen : S

/-- Constructor `Mapped::new` from `src/mapped.rs`. -/
def Mapped.new (generator : S) : Mapped S :=
  ⟨generator⟩

/-- Translation of `GeneratorExt::mapped` (src/generatorext.rs): apply the
user's coroutine-to-coroutine transform `f` to the whole original coroutine
once, at construction time, and wrap the result. -/
def mapped (f : S → T) (self : S) : Mapped T :=
  Mapped.new (f self)

/-- Translation of `impl Generator for Mapped`'s `resume` (src/mapped.rs):
delegate directly to the produced inner coroutine, with no added logic. -/
def Mapped.resume (g : StepFun T Y R) : StepFun (Mapped T) Y R :=
  fun self =>
    let out := g self.gen
    (out.1, ⟨out.2⟩)

/-- State of the iterator adapter `GenIter`, from `src/iter.rs`: a tuple
struct wrapping `Option` of the coroutine. -/
structure GenIter (S : Type) : Type where
  inner : Option S

/-- Constructor `GenIter::new` / `new_unchecked` from `src/iter.rs`. -/
def GenIter.new (gen : S) : GenIter S :=
  ⟨some gen⟩

/-- Translation of `impl Iterator for Pin<&mut GenIter<G>>`'s `next`
(src/iter.rs): when the option is empty, return `none` leaving the state
alone; otherwise resume the stored coroutine once — a yield comes back as
`some y` with the coroutine kept, a completion discards the coroutine
(`self.set(GenIter(None))`) and returns `none`. -/
def GenIter.next (g : StepFun S Y R) (self : GenIter S) : Option Y × GenIter S :=
  match self.inner with
  | some s =>
    match g s with
    | (GeneratorState.Yielded y, s1) => (some y, ⟨some s1⟩)
    | (GeneratorState.Complete _, _) => (none, ⟨none⟩)
  | none => (none, self)

/-- Values produced by repeatedly calling `GenIter.next` until it returns
`none` (or fuel runs out). Observation helper for the pull-based path. -/
def iterCollect (g : StepFun S Y R) : Nat → GenIter S → List Y
  | 0, _ => []
  | fuel + 1, it =>
    match GenIter.next g it with
    | (some y, it1) => y :: iterCollect g fuel it1
    | (none, _) => []

/-- Translation of the `loop` in `GeneratorExt::fold_ret`
(src/generatorext.rs), made total by fuel: resume the coroutine; fold each
yielded value into the accumulator with `f`, and on completion return the
accumulator together with the coroutine's return value. -/
def fold_ret (g : StepFun S Y R) (f : B → Y → B) : Nat → S → B → Option (B × R)
  | 0, _, _ => none
  | fuel + 1, s, init =>
    match g s with
    | (GeneratorState.Yielded y, s1) => fold_ret g f fuel s1 (f init y)
    | (GeneratorState.Complete r, _) => some (init, r)

/-- Translation of `GeneratorExt::fold` (src/generatorext.rs): `fold_ret`
with the return value discarded (`.0` of the pair). -/
def fold (g : StepFun S Y R) (f : B → Y → B) (fuel : Nat) (s : S) (init : B) :
    Option B :=
  (fold_ret g f fuel s init).map Prod.fst

/-- Helper: a coroutine that completes within the fuel has its pull-based
iteration collect exactly its yield sequence. -/
theorem iterCollect_eq_run (g : StepFun S Y R) :
    ∀ (fuel : Nat) (s : S) (r : R), (run g fuel s).2 = some r →
      iterCollect g fuel (GenIter.new s) = (run g fuel s).1 := by
  intro fuel
  induction fuel with
  | zero => intro s r h; simp [run] at h
  | succ n ih =>
    intro s r h
    rcases hgs : g s with ⟨out, s1⟩
    cases out with
    | Yielded y =>
      have h2 : (run g n s1).2 = some r := by simpa [run, hgs] using h
      simp [iterCollect, GenIter.next, GenIter.new, run, hgs]
      exact ih s1 r h2
    | Complete r0 =>
      simp [iterCollect, GenIter.next, GenIter.new, run, hgs]

/-- Helper: the eager fold loop computes the left fold of the yield sequence
and surfaces the return value, for any coroutine completing within the fuel. -/
theorem fold_ret_eq_run (g : StepFun S Y R) (f : B → Y → B) :
    ∀ (fuel : Nat) (s : S) (init : B) (r : R), (run g fuel s).2 = some r →
      fold_ret g f fuel s init = some ((run g fuel s).1.foldl f init, r) := by
  intro fuel
  induction fuel with
  | zero => intro s init r h; simp [run] at h
  | succ n ih =>
    intro s init r h
    rcases hgs : g s with ⟨out, s1⟩
    cases out with
    | Yielded y =>
      have h2 : (run g n s1).2 = some r := by simpa [run, hgs] using h
      simp [fold_ret, run, hgs]
      exact ih s1 (f init y) r h2
    | Complete r0 =>
      have hr : r0 = r := by simpa [run, hgs] using h
      simp [fold_ret, run, hgs, hr]

/-- Helper: the list coroutine yields exactly its list and returns `r`,
completing within `length + 1` resumes. -/
theorem run_listStep (r : R) :
    ∀ (l : List Y), run (listStep r) (l.length + 1) l = (l, some r) := by
  intro l
  induction l with
  | nil => simp [run, listStep]
  | cons y ys ih =>
    have step1 : run (listStep r) ((y :: ys).length + 1) (y :: ys) =
        (y :: (run (listStep r) (ys.length + 1) ys).1,
          (run (listStep r) (ys.length + 1) ys).2) := rfl
    rw [step1, ih]

/-- C1. The spec claims that on inner `Completed` the `TakeWhile` resume sets
the `complete` flag, so that the inner coroutine is never resumed again. The
code does not: with a resume-counting inner coroutine that completes
immediately, the first resume returns `Complete ()` but leaves the flag
`false` (inner resume count 1), and a second resume reaches the inner
coroutine again (count 2), resuming an already-completed coroutine. -/
theorem takeWhile_inner_complete_bug :
    TakeWhile.resume (countStep (listStep (0 : Nat))) (fun _ => true)
        ⟨false, (([] : List Nat), 0)⟩ =
      (GeneratorState.Complete (), ⟨false, (([] : List Nat), 1)⟩) ∧
    stepN (TakeWhile.resume (countStep (listStep (0 : Nat))) (fun _ => true)) 2
        ⟨false, (([] : List Nat), 0)⟩ =
      ([GeneratorState.Complete (), GeneratorState.Complete ()],
        ⟨false, (([] : List Nat), 2)⟩) :=
  ⟨rfl, rfl⟩

/-- C2. Exhaustion of the iterator adapter is monotonic and terminal: whenever
`next` returns `none` the stored option is empty afterwards, and from an
empty state any number of further `next` calls all return `none` and leave
the state — including the inner resume counter — untouched, so the inner
coroutine is never resumed again. -/
theorem genIter_exhaustion_monotone (g : StepFun S Y R) :
    (∀ (it it1 : GenIter (S × Nat)) (o : Option Y),
        GenIter.next (countStep g) it = (o, it1) → o = none → it1.inner = none) ∧
    (∀ (it : GenIter (S × Nat)), it.inner = none →
        ∀ (k : Nat),
          stepN (GenIter.next (countStep g)) k it = (List.replicate k none, it)) := by
  constructor
  · intro it it1 o h ho
    subst ho
    rcases it with ⟨inner⟩
    cases inner with
    | none =>
      simp [GenIter.next] at h
      simp [← h]
    | some p =>
      rcases hgp : g p.1 with ⟨out, s1⟩
      cases out with
      | Yielded y => simp [GenIter.next, countStep, hgp] at h
      | Complete r0 =>
        simp [GenIter.next, countStep, hgp] at h
        simp [← h]
  · intro it h k
    rcases it with ⟨inner⟩
    simp only [GenIter.mk.injEq] at h
    subst h
    induction k with
    | zero => simp [stepN]
    | succ n ih => simp [stepN, GenIter.next, ih, List.replicate_succ]

/-- C2 witness: at the list coroutine, a `next` call that sees the inner
completion empties the state, and two further calls from the empty state
return `none` twice without touching the resume counter. -/
theorem genIter_exhaustion_monotone_witness :
    (GenIter.mk (none : Option (List Nat × Nat))).inner = none ∧
    stepN (GenIter.next (countStep (listStep (0 : Nat)))) 2
        (GenIter.mk (none : Option (List Nat × Nat))) =
      ([none, none], GenIter.mk none) :=
  ⟨(genIter_exhaustion_monotone (listStep 0)).1 ⟨some ([], 5)⟩ ⟨none⟩ none rfl rfl,
   (genIter_exhaustion_monotone (listStep 0)).2 ⟨none⟩ rfl 2⟩

/-- C3. Single-call behaviour of the iterator adapter's `next`, with a
resume-counting inner coroutine: on an empty state it returns `none` leaving
everything (counter included) unchanged; on a stored coroutine it resumes it
exactly once, turning `Yielded y` into `some y` with the coroutine kept, and
turning `Complete r` into `none` with the stored option emptied (the return
value discarded). -/
theorem genIter_next_spec (g : StepFun S Y R) :
    (∀ (it : GenIter (S × Nat)), it.inner = none →
        GenIter.next (countStep g) it = (none, it)) ∧
    (∀ (s : S) (n : Nat) (y : Y) (s1 : S),
        g s = (GeneratorState.Yielded y, s1) →
        GenIter.next (countStep g) ⟨some (s, n)⟩ = (some y, ⟨some (s1, n + 1)⟩)) ∧
    (∀ (s : S) (n : Nat) (r : R) (s1 : S),
        g s = (GeneratorState.Complete r, s1) →
        GenIter.next (countStep g) ⟨some (s, n)⟩ = (none, ⟨none⟩)) := by
  refine ⟨?_, ?_, ?_⟩
  · intro it h
    rcases it with ⟨inner⟩
    cases inner with
    | none => rfl
    | some p => simp at h
  · intro s n y s1 h
    simp [GenIter.next, countStep, h]
  · intro s n r s1 h
    simp [GenIter.next, countStep, h]

/-- C3 witness: concrete `next` calls on the list coroutine, one per branch. -/
theorem genIter_next_spec_witness :
    GenIter.next (countStep (listStep (0 : Nat))) ⟨some (([5] : List Nat), 0)⟩ =
      (some 5, ⟨some (([] : List Nat), 1)⟩) ∧
    GenIter.next (countStep (listStep (7 : Nat))) ⟨some (([] : List Nat), 3)⟩ =
      (none, ⟨none⟩) ∧
    GenIter.next (countStep (listStep (0 : Nat))) (⟨none⟩ : GenIter (List Nat × Nat)) =
      (none, ⟨none⟩) :=
  ⟨(genIter_next_spec (listStep 0)).2.1 [5] 0 5 [] rfl,
   (genIter_next_spec (listStep 7)).2.2 [] 3 7 [] rfl,
   (genIter_next_spec (listStep (0 : Nat))).1 ⟨none⟩ rfl⟩

/-- C4. The `Take` combinator: with `count = 0` every resume returns
`Complete ()` leaving the whole state (inner coroutine and resume counter)
untouched; with `count ≠ 0` it decrements the count and resumes the inner
coroutine exactly once, forwarding a yield unchanged and turning an inner
completion into `Complete ()` with the count forced to 0. Concretely,
`Take 3` over a 5-element coroutine yields exactly the first 3 values and
then completes, with only 3 inner resumes even across 5 outer resumes, and
`Take 0` never resumes the inner coroutine at all. -/
theorem take_resume_spec (g : StepFun S Y R) :
    (∀ (p : S × Nat),
        Take.resume (countStep g) ⟨0, p⟩ = (GeneratorState.Complete (), ⟨0, p⟩)) ∧
    (∀ (c : Nat) (s : S) (n : Nat) (y : Y) (s1 : S), c ≠ 0 →
        g s = (GeneratorState.Yielded y, s1) →
        Take.resume (countStep g) ⟨c, (s, n)⟩ =
          (GeneratorState.Yielded y, ⟨c - 1, (s1, n + 1)⟩)) ∧
    (∀ (c : Nat) (s : S) (n : Nat) (r : R) (s1 : S), c ≠ 0 →
        g s = (GeneratorState.Complete r, s1) →
        Take.resume (countStep g) ⟨c, (s, n)⟩ =
          (GeneratorState.Complete (), ⟨0, (s1, n + 1)⟩)) ∧
    stepN (Take.resume (countStep (listStep (0 : Nat)))) 5
        (⟨3, ([0, 1, 2, 3, 4], 0)⟩ : Take (List Nat × Nat)) =
      ([GeneratorState.Yielded 0, GeneratorState.Yielded 1, GeneratorState.Yielded 2,
        GeneratorState.Complete (), GeneratorState.Complete ()], ⟨0, ([3, 4], 3)⟩) ∧
    stepN (Take.resume (countStep (listStep (0 : Nat)))) 4
        (⟨0, ([0, 1, 2, 3, 4], 0)⟩ : Take (List Nat × Nat)) =
      (List.replicate 4 (GeneratorState.Complete ()), ⟨0, ([0, 1, 2, 3, 4], 0)⟩) := by
  refine ⟨fun p => rfl, ?_, ?_, rfl, rfl⟩
  · intro c s n y s1 hc hgs
    simp [Take.resume, countStep, hgs, hc]
  · intro c s n r s1 hc hgs
    simp [Take.resume, countStep, hgs, hc]

/-- C4 witness: concrete `Take` resumes, one per hypothesis-guarded branch. -/
theorem take_resume_spec_witness :
    Take.resume (countStep (listStep (0 : Nat))) ⟨2, ([7, 8], 0)⟩ =
      (GeneratorState.Yielded 7, ⟨1, ([8], 1)⟩) ∧
    Take.resume (countStep (listStep (9 : Nat))) ⟨2, (([] : List Nat), 0)⟩ =
      (GeneratorState.Complete (), ⟨0, (([] : List Nat), 1)⟩) :=
  ⟨(take_resume_spec (listStep 0)).2.1 2 [7, 8] 0 7 [8] (by decide) rfl,
   (take_resume_spec (listStep 9)).2.2.1 2 [] 0 9 [] (by decide) rfl⟩

/-- C5. The `TakeWhile` combinator with the `complete` flag still unset
resumes the inner coroutine exactly once: a yielded value accepted by the
predicate is forwarded with the flag left unset, a rejected value is dropped
while the flag is set and `Complete ()` returned; once the flag is set every
resume returns `Complete ()` with the whole state (counter included)
untouched. Concretely, over `[1,2,3,4,1]` with predicate `< 4` it yields
exactly `[1,2,3]`, the failing `4` is never yielded, and the trailing `1` is
never examined (only 4 inner resumes happen). -/
theorem takeWhile_resume_spec (g : StepFun S Y R) (predicate : Y → Bool) :
    (∀ (p : S × Nat),
        TakeWhile.resume (countStep g) predicate ⟨true, p⟩ =
          (GeneratorState.Complete (), ⟨true, p⟩)) ∧
    (∀ (s : S) (n : Nat) (y : Y) (s1 : S),
        g s = (GeneratorState.Yielded y, s1) → predicate y = true →
        TakeWhile.resume (countStep g) predicate ⟨false, (s, n)⟩ =
          (GeneratorState.Yielded y, ⟨false, (s1, n + 1)⟩)) ∧
    (∀ (s : S) (n : Nat) (y : Y) (s1 : S),
        g s = (GeneratorState.Yielded y, s1) → predicate y = false →
        TakeWhile.resume (countStep g) predicate ⟨false, (s, n)⟩ =
          (GeneratorState.Complete (), ⟨true, (s1, n + 1)⟩)) ∧
    stepN (TakeWhile.resume (countStep (listStep (0 : Nat))) (fun v => decide (v < 4))) 5
        ⟨false, ([1, 2, 3, 4, 1], 0)⟩ =
      ([GeneratorState.Yielded 1, GeneratorState.Yielded 2, GeneratorState.Yielded 3,
        GeneratorState.Complete (), GeneratorState.Complete ()], ⟨true, ([1], 4)⟩) := by
  refine ⟨fun p => rfl, ?_, ?_, rfl⟩
  · intro s n y s1 hgs hp
    simp [TakeWhile.resume, countStep, hgs, hp]
  · intro s n y s1 hgs hp
    simp [TakeWhile.resume, countStep, hgs, hp]

/-- C5 witness: concrete `TakeWhile` resumes, one per predicate outcome. -/
theorem takeWhile_resume_spec_witness :
    TakeWhile.resume (countStep (listStep (0 : Nat))) (fun v => decide (v < 4))
        ⟨false, ([1, 2], 0)⟩ =
      (GeneratorState.Yielded 1, ⟨false, ([2], 1)⟩) ∧
    TakeWhile.resume (countStep (listStep (0 : Nat))) (fun v => decide (v < 4))
        ⟨false, ([9, 2], 0)⟩ =
      (GeneratorState.Complete (), ⟨true, ([2], 1)⟩) :=
  ⟨(takeWhile_resume_spec (listStep 0) (fun v => decide (v < 4))).2.1
      [1, 2] 0 1 [2] rfl rfl,
   (takeWhile_resume_spec (listStep 0) (fun v => decide (v < 4))).2.2.1
      [9, 2] 0 9 [2] rfl rfl⟩

/-- C6. The `Filter` combinator's resume loop: any value it surfaces as
`Yielded` satisfies the predicate (rejected values are never surfaced); an
inner completion is returned immediately; over the list coroutine, a surfaced
value is the first element of the remaining list accepted by the predicate,
everything skipped before it failing the predicate. Concretely, over
`[1,2,3,4,5]` with the even predicate and a resume-counting inner coroutine,
successive resumes surface exactly `2` then `4` then `Complete 7`, with 6
inner resumes in total (5 examined items plus the final completion). -/
theorem filter_resume_spec (g : StepFun S Y R) (predicate : Y → Bool) (r : R) :
    (∀ (fuel : Nat) (s : S) (y : Y) (s1 : S),
        Filter.resumeLoop g predicate fuel s = some (GeneratorState.Yielded y, s1) →
        predicate y = true) ∧
    (∀ (fuel : Nat) (s : S) (r1 : R) (s1 : S),
        g s = (GeneratorState.Complete r1, s1) →
        Filter.resumeLoop g predicate (fuel + 1) s =
          some (GeneratorState.Complete r1, s1)) ∧
    (∀ (fuel : Nat) (l l1 : List Y) (y : Y),
        Filter.resumeLoop (listStep r) predicate fuel l =
          some (GeneratorState.Yielded y, l1) →
        ∃ pre, l = pre ++ y :: l1 ∧ (∀ x ∈ pre, predicate x = false) ∧
          predicate y = true) ∧
    (Filter.resumeLoop (countStep (listStep (7 : Nat))) (fun v => v % 2 == 0) 6
        ([1, 2, 3, 4, 5], 0) = some (GeneratorState.Yielded 2, ([3, 4, 5], 2)) ∧
      Filter.resumeLoop (countStep (listStep (7 : Nat))) (fun v => v % 2 == 0) 6
        ([3, 4, 5], 2) = some (GeneratorState.Yielded 4, ([5], 4)) ∧
      Filter.resumeLoop (countStep (listStep (7 : Nat))) (fun v => v % 2 == 0) 6
        ([5], 4) = some (GeneratorState.Complete 7, ([], 6))) := by
  refine ⟨?_, ?_, ?_, rfl, rfl, rfl⟩
  · intro fuel
    induction fuel with
    | zero => intro s y s1 h; simp [Filter.resumeLoop] at h
    | succ n ih =>
      intro s y s1 h
      rcases hgs : g s with ⟨out, s2⟩
      cases out with
      | Yielded z =>
        cases hp : predicate z with
        | true =>
          simp [Filter.resumeLoop, hgs, hp] at h
          rcases h with ⟨h1, h2⟩
          rw [← h1]
          exact hp
        | false =>
          simp [Filter.resumeLoop, hgs, hp] at h
          exact ih s2 y s1 h
      | Complete r2 => simp [Filter.resumeLoop, hgs] at h
  · intro fuel s r1 s1 h
    simp [Filter.resumeLoop, h]
  · intro fuel
    induction fuel with
    | zero => intro l l1 y h; simp [Filter.resumeLoop] at h
    | succ n ih =>
      intro l l1 y h
      cases l with
      | nil => simp [Filter.resumeLoop, listStep] at h
      | cons z zs =>
        cases hp : predicate z with
        | true =>
          simp [Filter.resumeLoop, listStep, hp] at h
          rcases h with ⟨h1, h2⟩
          subst h1
          subst h2
          exact ⟨[], by simp, by simp, hp⟩
        | false =>
          simp [Filter.resumeLoop, listStep, hp] at h
          obtain ⟨pre, hpre, hall, hy⟩ := ih zs l1 y h
          refine ⟨z :: pre, by simp [hpre], ?_, hy⟩
          intro x hx
          rcases List.mem_cons.mp hx with h1 | h2
          · rw [h1]; exact hp
          · exact hall x h2

/-- C6 witness: the loop characterisations applied to the even predicate over
small concrete lists. -/
theorem filter_resume_spec_witness :
    ((2 : Nat) % 2 == 0) = true ∧
    Filter.resumeLoop (listStep (7 : Nat)) (fun v => v % 2 == 0) 1 [] =
      some (GeneratorState.Complete 7, ([] : List Nat)) ∧
    (∃ pre, [1, 2, 3] = pre ++ 2 :: [3] ∧
      (∀ x ∈ pre, ((x : Nat) % 2 == 0) = false) ∧ ((2 : Nat) % 2 == 0) = true) :=
  ⟨(filter_resume_spec (listStep (7 : Nat)) (fun v => v % 2 == 0) 7).1
      2 [1, 2] 2 [] (by rfl),
   (filter_resume_spec (listStep (7 : Nat)) (fun v => v % 2 == 0) 7).2.1
      0 [] 7 [] (by rfl),
   (filter_resume_spec (listStep (7 : Nat)) (fun v => v % 2 == 0) 7).2.2.1
      6 [1, 2, 3] [3] 2 (by rfl)⟩

/-- C7. The `Map` combinator is the pointwise map over the yield sequence:
for every fuel bound, the yields of `Map f` over a coroutine are exactly the
map of `f` over that coroutine's yields (same order, same count, so `f` is
applied exactly once per item), and the return value is passed through
unchanged. -/
theorem map_yield_sequence (g : StepFun S Y R) (f : Y → O) :
    ∀ (fuel : Nat) (s : S),
      run (Map.resume g f) fuel ⟨s⟩ = ((run g fuel s).1.map f, (run g fuel s).2) := by
  intro fuel
  induction fuel with
  | zero => intro s; simp [run]
  | succ n ih =>
    intro s
    rcases hgs : g s with ⟨out, s1⟩
    cases out with
    | Yielded y => simp [run, Map.resume, hgs, ih]
    | Complete r => simp [run, Map.resume, hgs]

/-- Helper: the `Mapped` wrapper is observationally transparent: it has the
same run behaviour as the coroutine it wraps, for every fuel bound. -/
theorem mapped_run_aux (g : StepFun T Y R) :
    ∀ (fuel : Nat) (t : T), run (Mapped.resume g) fuel ⟨t⟩ = run g fuel t := by
  intro fuel
  induction fuel with
  | zero => intro t; simp [run]
  | succ n ih =>
    intro t
    rcases hgt : g t with ⟨out, t1⟩
    cases out with
    | Yielded y => simp [run, Mapped.resume, hgt, ih]
    | Complete r => simp [run, Mapped.resume, hgt]

/-- C9. The `mapped` constructor applies the coroutine-to-coroutine transform
`f` exactly once at construction time (the wrapper is literally `Mapped.new`
of `f` applied to the original; `Mapped.resume` takes no transform at all),
each resume of the wrapper returns exactly what a resume of the produced
coroutine returns, and the wrapper is observationally equivalent to the
produced coroutine `f s` at every fuel bound. -/
theorem mapped_delegation (f : S → T) (g : StepFun T Y R) (s : S) :
    mapped f s = Mapped.new (f s) ∧
    (∀ (t : T), Mapped.resume g ⟨t⟩ = ((g t).1, ⟨(g t).2⟩)) ∧
    (∀ (fuel : Nat), run (Mapped.resume g) fuel (mapped f s) = run g fuel (f s)) :=
  ⟨rfl, fun _ => rfl, fun fuel => mapped_run_aux g fuel (f s)⟩

/-- C8. The eager fold: for any coroutine completing within the fuel,
`fold_ret` returns the left fold of the yield sequence paired with the return
value and `fold` returns that same accumulator alone; over a list coroutine
this is exactly `List.foldl`; and summing a coroutine yielding `[0,1,2,3,4]`
from 0 gives 10. -/
theorem fold_spec (g : StepFun S Y R) (f : B → Y → B) :
    (∀ (fuel : Nat) (s : S) (init : B) (r : R), (run g fuel s).2 = some r →
        fold_ret g f fuel s init = some ((run g fuel s).1.foldl f init, r) ∧
        fold g f fuel s init = some ((run g fuel s).1.foldl f init)) ∧
    (∀ (r : R) (l : List Y) (init : B),
        fold_ret (listStep r) f (l.length + 1) l init = some (l.foldl f init, r)) ∧
    fold (listStep (0 : Nat)) (fun acc v => acc + v) 6 [0, 1, 2, 3, 4] 0 = some 10 := by
  refine ⟨?_, ?_, rfl⟩
  · intro fuel s init r h
    have h1 := fold_ret_eq_run g f fuel s init r h
    exact ⟨h1, by simp [fold, h1]⟩
  · intro r l init
    have h1 : (run (listStep r) (l.length + 1) l).2 = some r := by
      rw [run_listStep]
    have h2 := fold_ret_eq_run (listStep r) f (l.length + 1) l init r h1
    rw [run_listStep] at h2
    exact h2

/-- C8 witness: the generic fold characterisation applied to the summing fold
over the coroutine yielding `[0,1,2,3,4]`. -/
theorem fold_spec_witness :
    fold_ret (listStep (0 : Nat)) (fun acc v => acc + v) 6 [0, 1, 2, 3, 4] 0 =
      some ((run (listStep (0 : Nat)) 6 [0, 1, 2, 3, 4]).1.foldl
        (fun acc v => acc + v) 0, 0) ∧
    fold (listStep (0 : Nat)) (fun acc v => acc + v) 6 [0, 1, 2, 3, 4] 0 =
      some ((run (listStep (0 : Nat)) 6 [0, 1, 2, 3, 4]).1.foldl
        (fun acc v => acc + v) 0) :=
  (fold_spec (listStep 0) (fun acc v => acc + v)).1 6 [0, 1, 2, 3, 4] 0 0 rfl

/-- C10. The eager fold path and the pull-based iteration path agree: for any
coroutine completing within the fuel, the values collected by repeated
`GenIter.next` calls are exactly the coroutine's yield sequence, and `fold`
equals the left fold of `f` over those collected values. -/
theorem fold_iter_agree (g : StepFun S Y R) (f : B → Y → B) (fuel : Nat) (s : S)
    (init : B) (r : R) (h : (run g fuel s).2 = some r) :
    iterCollect g fuel (GenIter.new s) = (run g fuel s).1 ∧
    fold g f fuel s init =
      some ((iterCollect g fuel (GenIter.new s)).foldl f init) := by
  have h1 := iterCollect_eq_run g fuel s r h
  have h2 := fold_ret_eq_run g f fuel s init r h
  refine ⟨h1, ?_⟩
  simp [fold, h2, h1]

/-- C10 witness: both paths agree on the coroutine yielding `[1,2,3]`. -/
theorem fold_iter_agree_witness :
    iterCollect (listStep (0 : Nat)) 6 (GenIter.new [1, 2, 3]) =
      (run (listStep (0 : Nat)) 6 [1, 2, 3]).1 ∧
    fold (listStep (0 : Nat)) (fun acc v => acc + v) 6 [1, 2, 3] 0 =
      some ((iterCollect (listStep (0 : Nat)) 6
        (GenIter.new [1, 2, 3])).foldl (fun acc v => acc + v) 0) :=
  fold_iter_agree (listStep 0) (fun acc v => acc + v) 6 [1, 2, 3] 0 0 rfl

end GenUtils
